import Mathlib

/-!
Verification development for the mantis-mcp incremental sync engine and
vector storage layer.  The definitions below are a shallow embedding of
`src/sync.ts` (diff / batch / persist cycle, `buildChunks`),
`src/vector-store.ts` (the SQLite-backed `VectorStore` operations) and the
similarity formula of `src/tools/search.ts`.  External collaborators (the
MantisBT REST connector, the transformer embedding pipeline, the sqlite-vec
distance computation, wall-clock time) enter as parameters of a `SyncEnv`
record; everything the repository itself computes is translated function by
function.
-/

namespace MantisMcp

/-- Embedding vectors; the store never inspects components except through the
distance metric, so rationals stand in for the 384 floats. -/
abbrev Vec := List ℚ

/-- `MantisRef` from `mantis-client.ts`: an id/name pair used for project,
status, reporter, handler, category and tags. -/
structure MantisRef where
  id : Nat
  name : String
deriving DecidableEq, Repr

/-- `MantisNote` from `mantis-client.ts` (fields the core reads). -/
structure MantisNote where
  id : Nat
  reporter : MantisRef
  text : String
  created_at : String
deriving DecidableEq, Repr

/-- `MantisIssue` from `mantis-client.ts` (fields the core reads).  Optional
fields of the TypeScript interface become `Option`. -/
structure MantisIssue where
  id : Nat
  summary : String
  description : String
  project : MantisRef
  category : Option MantisRef
  status : MantisRef
  reporter : MantisRef
  handler : Option MantisRef
  created_at : String
  updated_at : String
  notes : Option (List MantisNote)
  tags : Option (List MantisRef)
deriving DecidableEq, Repr

/-- `MantisIssueHeader` from `mantis-client.ts`: the lightweight header used
by the sync diff. -/
structure MantisIssueHeader where
  id : Nat
  updated_at : String
  project : MantisRef
deriving DecidableEq, Repr

/-- `chunk_type IN ('issue','note')` from the `chunks` table schema. -/
inductive ChunkType where
  | issue
  | note
deriving DecidableEq, Repr

/-- A JSON string literal rendering used by the metadata builders
(stands in for `JSON.stringify` on a string field). -/
def jstr (s : String) : String := "\"" ++ s ++ "\""

/-- Rendering of `string | null` fields inside metadata JSON. -/
def jopt : Option String → String
  | none => "null"
  | some s => jstr s

/-- Rendering of the `tags` array inside the issue-chunk metadata JSON. -/
def jarr (ss : List String) : String :=
  "[" ++ String.intercalate "," (ss.map jstr) ++ "]"

/-- The `metadata_json` of the issue-level chunk, mirroring the object
literal in `buildChunks` (`issue_id`, `project`, `status`, `reporter`,
`handler`, `category`, `tags`). -/
def issueMetaJson (issue : MantisIssue) : String :=
  "\x7b\"issue_id\":" ++ toString issue.id ++
  ",\"project\":" ++ jstr issue.project.name ++
  ",\"status\":" ++ jstr issue.status.name ++
  ",\"reporter\":" ++ jstr issue.reporter.name ++
  ",\"handler\":" ++ jopt (issue.handler.map MantisRef.name) ++
  ",\"category\":" ++ jopt (issue.category.map MantisRef.name) ++
  ",\"tags\":" ++ jarr ((issue.tags.getD []).map MantisRef.name) ++ "\x7d"

/-- The `metadata_json` of a note-level chunk, mirroring the object literal
in `buildChunks` (`issue_id`, `note_id`, `project`, `reporter`,
`created_at`). -/
def noteMetaJson (issue : MantisIssue) (note : MantisNote) : String :=
  "\x7b\"issue_id\":" ++ toString issue.id ++
  ",\"note_id\":" ++ toString note.id ++
  ",\"project\":" ++ jstr issue.project.name ++
  ",\"reporter\":" ++ jstr note.reporter.name ++
  ",\"created_at\":" ++ jstr note.created_at ++ "\x7d"

/-- The chunk records produced by `buildChunks` in `sync.ts` (no `issue_id`
yet; the caller supplies it when inserting). -/
structure ChunkData where
  chunk_type : ChunkType
  note_id : Option Nat
  text : String
  metadata_json : String
deriving DecidableEq, Repr

/-- The issue-chunk text: `[Issue #id] summary` joined with the description
by a blank line; `.filter(Boolean)` drops an empty description. -/
def issueChunkText (issue : MantisIssue) : String :=
  let head := "[Issue #" ++ toString issue.id ++ "] " ++ issue.summary
  if issue.description = "" then head
  else head ++ "\n\n" ++ issue.description

/-- The note-chunk text: header line naming the issue and the note reporter,
then the note text.  Mirrors the template literal in `buildChunks`. -/
def noteChunkText (issue : MantisIssue) (note : MantisNote) : String :=
  "[Issue #" ++ toString issue.id ++ " - Note by " ++ note.reporter.name ++
  "]\n\n" ++ note.text

/-- The whitespace set recognised by the JS `String.prototype.trim`
(WhiteSpace and LineTerminator code points). -/
def jsWhitespace (c : Char) : Bool :=
  c = ' ' || c = '\t' || c = '\n' || c = '\r' || c = '\x0b' || c = '\x0c'
  || c = '\u00A0' || c = '\uFEFF' || c = '\u2028' || c = '\u2029'

/-- `String.prototype.trim`: strip leading and trailing whitespace. -/
def jsTrim (s : String) : String :=
  String.mk
    (((s.data.dropWhile jsWhitespace).reverse.dropWhile
      jsWhitespace).reverse)

/-- The guard `!note.text || note.text.trim().length === 0` in
`buildChunks`: a note is skipped when its text is empty or trims to
empty. -/
def noteBlank (note : MantisNote) : Bool :=
  note.text = "" || jsTrim note.text = ""

/-- `buildChunks` from `sync.ts`: push the issue-level chunk, then walk the
notes (when present) pushing one chunk per non-blank note. -/
def buildChunks (issue : MantisIssue) : List ChunkData :=
  let chunks : List ChunkData :=
    [⟨ChunkType.issue, none, issueChunkText issue, issueMetaJson issue⟩]
  match issue.notes with
  | none => chunks
  | some ns =>
      ns.foldl
        (fun acc note =>
          if noteBlank note then acc
          else acc ++ [⟨ChunkType.note, some note.id, noteChunkText issue note,
                        noteMetaJson issue note⟩])
        chunks

/-- One row of the `issues` table (`vector-store.ts` schema). -/
structure IssueRow where
  id : Nat
  project_id : Nat
  project_name : String
  summary : String
  status : String
  handler : Option String
  reporter : String
  created_at : String
  updated_at : String
  raw_json : String
deriving DecidableEq, Repr

/-- One row of the `chunks` table; `id` is the AUTOINCREMENT primary key. -/
structure ChunkRow where
  id : Nat
  issue_id : Nat
  chunk_type : ChunkType
  note_id : Option Nat
  text : String
  metadata_json : String
deriving DecidableEq, Repr

/-- The argument record of `VectorStore.insertChunk` (a chunk without its
store-assigned id). -/
structure ChunkInsert where
  issue_id : Nat
  chunk_type : ChunkType
  note_id : Option Nat
  text : String
  metadata_json : String
deriving DecidableEq, Repr

/-- The whole database file of `vector-store.ts`: `issues`, `chunks`,
`vec_chunks` (chunk id paired with its embedding) and `sync_metadata`,
plus the AUTOINCREMENT counter of the `chunks` table. -/
structure Store where
  issues : List IssueRow
  chunks : List ChunkRow
  nextChunkId : Nat
  vectors : List (Nat × Vec)
  meta : List (String × String)
deriving DecidableEq, Repr

/-- The empty database right after `initSchema`. -/
def Store.empty : Store := ⟨[], [], 1, [], []⟩

/-- `insertIssue`: `INSERT OR REPLACE INTO issues` keyed by id.  better-sqlite3
builds SQLite with foreign keys enforced by default, so when REPLACE
resolves a conflict by deleting the existing issues row, the
`ON DELETE CASCADE` clause of the `chunks` table deletes that issue's chunk
rows as well; `vec_chunks` is a virtual table with no foreign key, so its
rows survive.  Without a conflicting row it is a plain insert. -/
def Store.insertIssue (s : Store) (row : IssueRow) : Store :=
  if s.issues.any (fun r => r.id == row.id) then
    { s with
      issues := s.issues.filter (fun r => r.id ≠ row.id) ++ [row]
      chunks := s.chunks.filter (fun c => c.issue_id ≠ row.id) }
  else
    { s with issues := s.issues ++ [row] }

/-- `insertChunk`: insert the chunk row (the store assigns
`lastInsertRowid`) and then the vector row keyed by that chunk id. -/
def Store.insertChunk (s : Store) (c : ChunkInsert) (v : Vec) : Store :=
  { s with
    chunks := s.chunks ++
      [⟨s.nextChunkId, c.issue_id, c.chunk_type, c.note_id, c.text,
        c.metadata_json⟩]
    nextChunkId := s.nextChunkId + 1
    vectors := s.vectors ++ [(s.nextChunkId, v)] }

/-- `deleteIssueChunks`: select the chunk ids of the issue, delete those
rows from `vec_chunks` one by one, then delete the chunk rows.  The
`chunks.length > 0` guard of the source is kept. -/
def Store.deleteIssueChunks (s : Store) (issueId : Nat) : Store :=
  let ids := (s.chunks.filter (fun c => c.issue_id = issueId)).map ChunkRow.id
  if ids.isEmpty then s
  else
    { s with
      vectors := s.vectors.filter (fun p => ¬ p.1 ∈ ids)
      chunks := s.chunks.filter (fun c => c.issue_id ≠ issueId) }

/-- `deleteIssue`: `deleteIssueChunks` followed by removal of the issue
row. -/
def Store.deleteIssue (s : Store) (issueId : Nat) : Store :=
  let s1 := s.deleteIssueChunks issueId
  { s1 with issues := s1.issues.filter (fun r => r.id ≠ issueId) }

/-- `getStoredIssueTimestamps` as a lookup: the `id -> updated_at` map read
from the `issues` table. -/
def Store.lookupTs (s : Store) (id : Nat) : Option String :=
  (s.issues.find? (fun r => r.id = id)).map IssueRow.updated_at

/-- `setMeta`: `INSERT OR REPLACE INTO sync_metadata`. -/
def Store.setMeta (s : Store) (key value : String) : Store :=
  { s with meta := s.meta.filter (fun p => p.1 ≠ key) ++ [(key, value)] }

/-- `getMeta`. -/
def Store.getMeta (s : Store) (key : String) : Option String :=
  (s.meta.find? (fun p => p.1 = key)).map Prod.snd

/-- `getCounts`: row counts of `issues` and `chunks`. -/
def Store.getCounts (s : Store) : Nat × Nat :=
  (s.issues.length, s.chunks.length)

/-- Schema invariants of the store: the chunk-id column and the vec_chunks
key column list the same ids in the same order (every chunk has exactly one
vector and vice versa), chunk ids are distinct and below the AUTOINCREMENT
counter, and issue ids are distinct (INTEGER PRIMARY KEY). -/
def Store.WF (s : Store) : Prop :=
  s.chunks.map ChunkRow.id = s.vectors.map Prod.fst
  ∧ (s.chunks.map ChunkRow.id).Nodup
  ∧ (∀ c ∈ s.chunks, c.id < s.nextChunkId)
  ∧ (s.issues.map IssueRow.id).Nodup

instance (s : Store) : Decidable s.WF := by
  unfold Store.WF; infer_instance

/-- One row returned by `VectorStore.search`. -/
structure SearchResult where
  chunk_id : Nat
  distance : ℚ
  issue_id : Nat
  chunk_type : ChunkType
  note_id : Option Nat
  text : String
  metadata_json : String
deriving DecidableEq, Repr

/-- The rows of the `vec_chunks JOIN chunks` in `search`, before ordering:
one row per vector whose chunk id resolves, carrying the distance computed
by the (external) metric `dist` against the query vector. -/
def searchRows (dist : Vec → Vec → ℚ) (s : Store) (q : Vec) :
    List SearchResult :=
  s.vectors.filterMap (fun p =>
    (s.chunks.find? (fun c => c.id = p.1)).map (fun c =>
      ⟨p.1, dist q p.2, c.issue_id, c.chunk_type, c.note_id, c.text,
       c.metadata_json⟩))

/-- Comparison used by `ORDER BY v.distance`. -/
def byDistance (a b : SearchResult) : Prop := a.distance ≤ b.distance

instance : DecidableRel byDistance := fun a b =>
  inferInstanceAs (Decidable (a.distance ≤ b.distance))

/-- `VectorStore.search`: order the joined rows by ascending distance
(stably, so ties keep insertion order) and apply `LIMIT`. -/
def Store.search (dist : Vec → Vec → ℚ) (s : Store) (q : Vec)
    (limit : Nat) : List SearchResult :=
  (List.insertionSort byDistance (searchRows dist s q)).take limit

/-- The similarity score of `tools/search.ts`: `1 - distance / 2` (the tool
displays it as a percentage). -/
def simScore (d : ℚ) : ℚ := 1 - d / 2

/-- The result record of `syncIndex`. -/
structure SyncResult where
  added : Nat
  updated : Nat
  deleted : Nat
  totalIssues : Nat
  totalChunks : Nat
  durationMs : Nat
deriving DecidableEq, Repr

/-- The collaborators of one `syncIndex` run: the remote issue table as the
connector would page it out, the per-id full fetch (`none` = the fetch
threw and the id is skipped), the embedding model, the configured batch
size, the per-batch transaction outcome (`false` = the better-sqlite3
transaction throws), and the wall clock. -/
structure SyncEnv where
  remote : List MantisIssueHeader
  fetch : Nat → Option MantisIssue
  embedF : String → Vec
  batchSize : Nat
  persistOk : Nat → Bool
  now : String
  duration : Nat

/-- `fetchAllIssueHeaders` of `mantis-client.ts`: the flattened pagination
of `/issues`, with `project_id` applied only when truthy. -/
def fetchAllIssueHeaders (remote : List MantisIssueHeader)
    (projectId : Option Nat) : List MantisIssueHeader :=
  match projectId with
  | none => remote
  | some p => if p = 0 then remote
              else remote.filter (fun h => h.project.id = p)

/-- The diff loop of `syncIndex` (step 2): walk the headers pushing each id
onto `toAdd` when no stored timestamp exists (the source tests the JS-falsy
`!storedTs`, so an empty stored string also lands in `toAdd`) and onto
`toUpdate` when the stored timestamp differs. -/
def classifyStep (s : Store) (acc : List Nat × List Nat)
    (h : MantisIssueHeader) : List Nat × List Nat :=
  match s.lookupTs h.id with
  | none => (acc.1 ++ [h.id], acc.2)
  | some ts =>
      if ts = "" then (acc.1 ++ [h.id], acc.2)
      else if ts ≠ h.updated_at then (acc.1, acc.2 ++ [h.id])
      else acc

/-- The `(toAdd, toUpdate)` pair computed by the diff loop. -/
def classify (s : Store) (headers : List MantisIssueHeader) :
    List Nat × List Nat :=
  headers.foldl (classifyStep s) ([], [])

/-- Step 3 of `syncIndex`: stored ids absent from the remote header set. -/
def toDeleteList (s : Store) (headers : List MantisIssueHeader) : List Nat :=
  s.issues.foldl
    (fun acc r =>
      if headers.any (fun h => h.id == r.id) then acc else acc ++ [r.id])
    []

/-- Slice loop for the batch partition; the fuel bounds the number of
iterations (each iteration consumes at least one element when the batch
size is positive, so the initial length is always enough fuel). -/
def chunksOfAux (bs : Nat) : Nat → List α → List (List α)
  | 0, _ => []
  | _, [] => []
  | fuel + 1, l =>
      if bs = 0 then []
      else l.take bs :: chunksOfAux bs fuel (l.drop bs)

/-- The batch partition `toProcess.slice(i, i + SYNC_BATCH_SIZE)` of
`syncIndex` step 5. -/
def chunksOf (bs : Nat) (l : List α) : List (List α) :=
  chunksOfAux bs l.length l

/-- The issue row written by the batch transaction (field for field the
object literal passed to `store.insertIssue`); `raw_json` is the retained
serialized payload. -/
def rawJson (i : MantisIssue) : String :=
  "\x7b\"id\":" ++ toString i.id ++
  ",\"summary\":" ++ jstr i.summary ++
  ",\"description\":" ++ jstr i.description ++
  ",\"project\":" ++ jstr i.project.name ++
  ",\"status\":" ++ jstr i.status.name ++
  ",\"created_at\":" ++ jstr i.created_at ++
  ",\"updated_at\":" ++ jstr i.updated_at ++ "\x7d"

/-- The `insertIssue` argument built in the batch transaction. -/
def issueRowOf (i : MantisIssue) : IssueRow :=
  ⟨i.id, i.project.id, i.project.name, i.summary, i.status.name,
   i.handler.map MantisRef.name, i.reporter.name, i.created_at,
   i.updated_at, rawJson i⟩

/-- The `insertChunk` argument built in the batch transaction. -/
def chunkInsertOf (i : MantisIssue) (c : ChunkData) : ChunkInsert :=
  ⟨i.id, c.chunk_type, c.note_id, c.text, c.metadata_json⟩

/-- `embedBatch` of `embeddings.ts`: sub-batches internally but returns one
independent vector per input text, in input order; with the external
pipeline modelled as a function `f` this is exactly `map f`. -/
def embedBatch (f : String → Vec) (texts : List String) : List Vec :=
  texts.map f

/-- The batch transaction of `syncIndex` (step 5e): for every
(issue, chunk) pair, in order, upsert the issue row and insert the chunk
with its aligned embedding. -/
def persistBatch (env : SyncEnv) (pairs : List (MantisIssue × ChunkData))
    (s : Store) : Store :=
  let embeddings := embedBatch env.embedF (pairs.map (fun pc => pc.2.text))
  (pairs.zip embeddings).foldl
    (fun st pe =>
      (st.insertIssue (issueRowOf pe.1.1)).insertChunk
        (chunkInsertOf pe.1.1 pe.1.2) pe.2)
    s

/-- The batch loop of `syncIndex` (step 5): fetch each id of the batch
(skipping failed fetches), purge old chunks of fetched issues classified as
updates, build and embed all chunks, then run the insert transaction.  A
transaction failure aborts only this batch: its inserts roll back and the
error propagates with the store as committed so far (the purges, issued
outside the transaction, stay committed). -/
def runBatches (env : SyncEnv) (toUpdate : List Nat) :
    Nat → List (List Nat) → Store → Except (String × Store) Store
  | _, [], s => Except.ok s
  | bidx, b :: rest, s =>
      let issues := b.filterMap env.fetch
      let s1 := issues.foldl
        (fun st i =>
          if toUpdate.contains i.id then st.deleteIssueChunks i.id else st)
        s
      let pairs := issues.flatMap
        (fun i => (buildChunks i).map (fun c => (i, c)))
      if env.persistOk bidx then
        runBatches env toUpdate (bidx + 1) rest (persistBatch env pairs s1)
      else Except.error ("Batch transaction failed", s1)

/-- The value stored under `last_sync_result`. -/
def syncResultJson (added updated deleted : Nat) : String :=
  "\x7b\"added\":" ++ toString added ++
  ",\"updated\":" ++ toString updated ++
  ",\"deleted\":" ++ toString deleted ++ "\x7d"

/-- `syncIndex` of `sync.ts`.  `syncing` is the module-level single-flight
flag at entry (the `finally` always clears it, so the flag after the call
is false in every outcome and is not returned).  The result pairs the
returned `SyncResult` (or the propagated error) with the store state when
the call leaves. -/
def syncIndex (env : SyncEnv) (scope : Option Nat) (syncing : Bool)
    (s : Store) : Except String SyncResult × Store :=
  if syncing then
    (Except.error "Sync already in progress. Please wait for it to finish.",
     s)
  else
    let headers := fetchAllIssueHeaders env.remote scope
    let cl := classify s headers
    let toDelete := toDeleteList s headers
    let s1 := toDelete.foldl Store.deleteIssue s
    let toProcess := cl.1 ++ cl.2
    match runBatches env cl.2 0 (chunksOf env.batchSize toProcess) s1 with
    | Except.error es => (Except.error es.1, es.2)
    | Except.ok s2 =>
        let s3 := (s2.setMeta "last_sync" env.now).setMeta "last_sync_result"
          (syncResultJson cl.1.length cl.2.length toDelete.length)
        (Except.ok ⟨cl.1.length, cl.2.length, toDelete.length,
          s3.getCounts.1, s3.getCounts.2, env.duration⟩, s3)

/-! ### Characterization of the diff loops -/

/-- A header lands in `toAdd` exactly when `!storedTs` is truthy: no stored
row, or a stored empty string. -/
def addPred (s : Store) (h : MantisIssueHeader) : Bool :=
  match s.lookupTs h.id with
  | none => true
  | some ts => ts == ""

/-- A header lands in `toUpdate` exactly when a non-empty stored timestamp
differs from the remote one. -/
def updPred (s : Store) (h : MantisIssueHeader) : Bool :=
  match s.lookupTs h.id with
  | none => false
  | some ts => ts != "" && ts != h.updated_at

lemma classify_go (s : Store) (headers : List MantisIssueHeader)
    (acc : List Nat × List Nat) :
    headers.foldl (classifyStep s) acc =
      (acc.1 ++ (headers.filter (addPred s)).map MantisIssueHeader.id,
       acc.2 ++ (headers.filter (updPred s)).map MantisIssueHeader.id) := by
  induction headers generalizing acc with
  | nil => simp
  | cons h t ih =>
      rw [List.foldl_cons, ih]
      cases hts : s.lookupTs h.id with
      | none => simp [classifyStep, addPred, updPred, hts]
      | some ts =>
          by_cases h1 : ts = ""
          · simp [classifyStep, addPred, updPred, hts, h1]
          · by_cases h2 : ts = h.updated_at
            · subst h2
              simp [classifyStep, addPred, updPred, hts, h1]
            · simp [classifyStep, addPred, updPred, hts, h1, h2]

lemma classify_eq (s : Store) (headers : List MantisIssueHeader) :
    classify s headers =
      ((headers.filter (addPred s)).map MantisIssueHeader.id,
       (headers.filter (updPred s)).map MantisIssueHeader.id) := by
  rw [classify, classify_go]; simp

lemma toDelete_go (headers : List MantisIssueHeader) (rows : List IssueRow)
    (acc : List Nat) :
    rows.foldl
        (fun acc r =>
          if headers.any (fun h => h.id == r.id) then acc else acc ++ [r.id])
        acc =
      acc ++ (rows.filter
        (fun r => !(headers.any (fun h => h.id == r.id)))).map IssueRow.id := by
  induction rows generalizing acc with
  | nil => simp
  | cons r t ih =>
      rw [List.foldl_cons, ih]
      by_cases hr : headers.any (fun h => h.id == r.id) <;> simp [hr]

lemma toDeleteList_eq (s : Store) (headers : List MantisIssueHeader) :
    toDeleteList s headers =
      (s.issues.filter
        (fun r => !(headers.any (fun h => h.id == r.id)))).map IssueRow.id := by
  rw [toDeleteList, toDelete_go]; simp

/-! ### The Chunk Builder -/

/-- The issue-level chunk of `buildChunks`. -/
def issueChunkOf (issue : MantisIssue) : ChunkData :=
  ⟨ChunkType.issue, none, issueChunkText issue, issueMetaJson issue⟩

/-- The note-level chunk of `buildChunks`. -/
def noteChunkOf (issue : MantisIssue) (note : MantisNote) : ChunkData :=
  ⟨ChunkType.note, some note.id, noteChunkText issue note,
   noteMetaJson issue note⟩

lemma foldl_skip_append {α β : Type} (p : α → Bool) (f : α → β)
    (l : List α) (acc : List β) :
    l.foldl (fun a n => if p n then a else a ++ [f n]) acc
      = acc ++ (l.filter (fun n => !p n)).map f := by
  induction l generalizing acc with
  | nil => simp
  | cons n t ih => by_cases hp : p n <;> simp [ih, hp]

/-- C7: `buildChunks` is the issue-level chunk followed by one note-level
chunk per note with non-blank text, in note order.  A record with zero
non-blank notes yields exactly one chunk; blank or whitespace-only notes
contribute none; and since the right-hand side is a function of the input
record alone, the same record always yields the same chunk list and
texts. -/
theorem buildChunks_closed_form (i : MantisIssue) :
    buildChunks i = issueChunkOf i ::
        ((i.notes.getD []).filter (fun n => !(noteBlank n))).map (noteChunkOf i)
    ∧ (buildChunks i).length
        = 1 + ((i.notes.getD []).filter (fun n => !(noteBlank n))).length := by
  have hmain : buildChunks i = issueChunkOf i ::
      ((i.notes.getD []).filter (fun n => !(noteBlank n))).map (noteChunkOf i) := by
    cases hn : i.notes with
    | none => simp [buildChunks, hn, issueChunkOf]
    | some ns =>
        simp only [buildChunks, hn, Option.getD_some]
        refine (foldl_skip_append noteBlank
          (fun note => (⟨ChunkType.note, some note.id, noteChunkText i note,
            noteMetaJson i note⟩ : ChunkData)) ns
          [⟨ChunkType.issue, none, issueChunkText i, issueMetaJson i⟩]).trans ?_
        simp [issueChunkOf, noteChunkOf]
  refine ⟨hmain, ?_⟩
  rw [hmain]
  simp [Nat.add_comm]

/-! ### Single-flight execution -/

/-- C5: a `syncIndex` call while the `syncing` flag is set fails
synchronously with the concurrency error and returns the store untouched —
nothing is queued and no write happens, so the in-flight sync is
unaffected. -/
theorem second_sync_rejected_synchronously (env : SyncEnv)
    (scope : Option Nat) (s : Store) :
    syncIndex env scope true s =
      (Except.error "Sync already in progress. Please wait for it to finish.",
       s) := rfl

/-! ### Concrete fixtures used by witnesses and counterexamples -/

/-- Projection of a sync outcome onto the returned result record. -/
def resultOf (x : Except String SyncResult × Store) : Option SyncResult :=
  match x with
  | (Except.ok r, _) => some r
  | (Except.error _, _) => none

/-- Projection of a sync outcome onto the propagated error message. -/
def errorOf (x : Except String SyncResult × Store) : Option String :=
  match x with
  | (Except.ok _, _) => none
  | (Except.error e, _) => some e

def refP1 : MantisRef := ⟨1, "ProjectOne"⟩

def refP2 : MantisRef := ⟨2, "ProjectTwo"⟩

def refStatus : MantisRef := ⟨10, "new"⟩

def refUser : MantisRef := ⟨5, "alice"⟩

/-- A stored row whose `updated_at` is the empty string. -/
def rowEmptyTs : IssueRow :=
  ⟨1, 1, "ProjectOne", "s", "new", none, "alice", "c", "", "raw"⟩

/-- A store holding only `rowEmptyTs` with one chunk and its vector. -/
def sEmptyTs : Store :=
  ⟨[rowEmptyTs], [⟨1, 1, ChunkType.issue, none, "txt", "md"⟩], 2,
   [(1, [1])], []⟩

/-! ### The sync diff (C2) -/

/-- C2 counterexample: issue 1 is present locally (its stored `updated_at`
is the empty string) and the remote timestamp `"x"` differs, yet the diff
classifies it as an add, not an update — the JS-falsy test `!storedTs`
sends a stored empty string down the absent-locally branch. -/
theorem diff_empty_timestamp_misclassified :
    sEmptyTs.lookupTs 1 = some "" ∧ ("" : String) ≠ "x"
    ∧ classify sEmptyTs [⟨1, "x", refP1⟩] = ([1], []) := by
  refine ⟨rfl, by decide, rfl⟩

/-- C2 amended: for distinct remote header ids, the diff classifies a
remote id with no stored row as add, an id whose stored `updated_at` is the
empty string as add (even when the remote string differs or is equal), an
id whose non-empty stored `updated_at` differs from the remote string as
update, and an id whose non-empty stored `updated_at` equals the remote
string as none of add, update or delete; stored ids matching no remote
header are classified as delete. -/
theorem diff_classification (s : Store) (headers : List MantisIssueHeader)
    (hnd : (headers.map MantisIssueHeader.id).Nodup) :
    (∀ h ∈ headers, s.lookupTs h.id = none →
      h.id ∈ (classify s headers).1)
    ∧ (∀ h ∈ headers, s.lookupTs h.id = some "" →
      h.id ∈ (classify s headers).1)
    ∧ (∀ h ∈ headers, ∀ ts, s.lookupTs h.id = some ts → ts ≠ "" →
      ts ≠ h.updated_at → h.id ∈ (classify s headers).2)
    ∧ (∀ h ∈ headers, s.lookupTs h.id = some h.updated_at →
      h.updated_at ≠ "" →
      h.id ∉ (classify s headers).1 ∧ h.id ∉ (classify s headers).2
        ∧ h.id ∉ toDeleteList s headers)
    ∧ (∀ r ∈ s.issues, (∀ h ∈ headers, h.id ≠ r.id) →
      r.id ∈ toDeleteList s headers) := by
  rw [classify_eq, toDeleteList_eq]
  refine ⟨?_, ?_, ?_, ?_, ?_⟩
  · intro h hh hlk
    exact List.mem_map.mpr
      ⟨h, List.mem_filter.mpr ⟨hh, by simp [addPred, hlk]⟩, rfl⟩
  · intro h hh hlk
    exact List.mem_map.mpr
      ⟨h, List.mem_filter.mpr ⟨hh, by simp [addPred, hlk]⟩, rfl⟩
  · intro h hh ts hlk h1 h2
    exact List.mem_map.mpr
      ⟨h, List.mem_filter.mpr ⟨hh, by simp [updPred, hlk, h1, h2]⟩, rfl⟩
  · intro h hh hlk hne
    refine ⟨?_, ?_, ?_⟩
    · intro hmem
      obtain ⟨h', hh', hid⟩ := List.mem_map.mp hmem
      obtain ⟨hh'm, hp⟩ := List.mem_filter.mp hh'
      have hlk' : s.lookupTs h'.id = some h.updated_at := by
        rw [hid]; exact hlk
      simp [addPred, hlk'] at hp
      exact hne hp
    · intro hmem
      obtain ⟨h', hh', hid⟩ := List.mem_map.mp hmem
      obtain ⟨hh'm, hp⟩ := List.mem_filter.mp hh'
      have heq : h' = h := List.inj_on_of_nodup_map hnd hh'm hh hid
      subst heq
      simp [updPred, hlk] at hp
    · intro hmem
      obtain ⟨r, hr, hid⟩ := List.mem_map.mp hmem
      obtain ⟨hrm, hp⟩ := List.mem_filter.mp hr
      simp only [Bool.not_eq_eq_eq_not, Bool.not_true, List.any_eq_false] at hp
      have := hp h hh
      simp [hid] at this
  · intro r hr hnone
    refine List.mem_map.mpr ⟨r, List.mem_filter.mpr ⟨hr, ?_⟩, rfl⟩
    simp only [Bool.not_eq_eq_eq_not, Bool.not_true, List.any_eq_false]
    intro h hh
    simp [hnone h hh]

/-- Concrete instantiation of `diff_classification`: remote ids 1 and 2 are
distinct, and the absent-locally id 1 is classified as add. -/
theorem diff_classification_witness :
    (([⟨1, "a", refP1⟩, ⟨2, "b", refP1⟩] :
        List MantisIssueHeader).map MantisIssueHeader.id).Nodup
    ∧ 1 ∈ (classify Store.empty
        [⟨1, "a", refP1⟩, ⟨2, "b", refP1⟩]).1 :=
  ⟨by decide,
   (diff_classification Store.empty [⟨1, "a", refP1⟩, ⟨2, "b", refP1⟩]
      (by decide)).1 ⟨1, "a", refP1⟩ (by decide) rfl⟩

/-! ### Chunk-id discipline, and the chunk/vector alignment (C3) -/

/-- The chunk-id bookkeeping every store operation preserves: chunk ids
are distinct and below the AUTOINCREMENT counter.  (The full chunk/vector
alignment of `Store.WF` is *not* preserved by the batch transaction: the
per-chunk `INSERT OR REPLACE` cascade-deletes chunk rows while their
vectors survive — see `sync_orphans_vectors`.) -/
def Store.WFC (s : Store) : Prop :=
  (s.chunks.map ChunkRow.id).Nodup ∧ ∀ c ∈ s.chunks, c.id < s.nextChunkId

lemma Store.WF.toWFC {s : Store} (h : s.WF) : s.WFC := ⟨h.2.1, h.2.2.1⟩

lemma WFC_insertIssue {s : Store} (h : s.WFC) (row : IssueRow) :
    (s.insertIssue row).WFC := by
  obtain ⟨h1, h2⟩ := h
  simp only [Store.insertIssue]
  split
  · exact ⟨h1.sublist ((List.filter_sublist _).map _),
      fun c hc => h2 c (List.mem_of_mem_filter hc)⟩
  · exact ⟨h1, h2⟩

lemma WFC_insertChunk {s : Store} (h : s.WFC) (c : ChunkInsert) (v : Vec) :
    (s.insertChunk c v).WFC := by
  obtain ⟨h1, h2⟩ := h
  constructor
  · simp only [Store.insertChunk, List.map_append, List.map_cons,
      List.map_nil]
    rw [List.nodup_append]
    refine ⟨h1, List.nodup_singleton _, ?_⟩
    intro x hx hx2
    simp only [List.mem_cons, List.not_mem_nil, or_false] at hx2
    subst hx2
    obtain ⟨cr, hcr, hcid⟩ := List.mem_map.mp hx
    have := h2 cr hcr
    omega
  · intro cr hcr
    simp only [Store.insertChunk, List.mem_append, List.mem_cons,
      List.not_mem_nil, or_false] at hcr
    rcases hcr with hcr | hcr
    · have := h2 cr hcr
      simp only [Store.insertChunk]
      omega
    · subst hcr
      simp [Store.insertChunk]

lemma WFC_deleteIssueChunks {s : Store} (h : s.WFC) (iid : Nat) :
    (s.deleteIssueChunks iid).WFC := by
  obtain ⟨h1, h2⟩ := h
  simp only [Store.deleteIssueChunks]
  split
  · exact ⟨h1, h2⟩
  · exact ⟨h1.sublist ((List.filter_sublist _).map _),
      fun c hc => h2 c (List.mem_of_mem_filter hc)⟩

lemma WFC_deleteIssue {s : Store} (h : s.WFC) (iid : Nat) :
    (s.deleteIssue iid).WFC := WFC_deleteIssueChunks h iid

/-- The store state carried by a `runBatches` outcome. -/
def stateOfRB (x : Except (String × Store) Store) : Store :=
  match x with
  | Except.ok s => s
  | Except.error es => es.2

/-- A sync environment with an empty remote, used by witnesses. -/
def envTrivial : SyncEnv :=
  ⟨[], fun _ => none, fun _ => [], 50, fun _ => true, "t0", 0⟩

/-- A new issue with one non-blank note: its two chunks make the batch
transaction call `insertIssue` twice for the same id. -/
def issueWithNote : MantisIssue :=
  ⟨1, "s", "d", refP1, none, refStatus, refUser, none, "c", "u1ts",
   some [⟨100, refUser, "a note", "t1"⟩], none⟩

/-- A remote with `issueWithNote` as a single new issue. -/
def envNoteAdd : SyncEnv :=
  ⟨[⟨1, "u1ts", refP1⟩],
   fun id => if id = 1 then some issueWithNote else none,
   fun _ => [1], 50, fun _ => true, "t0", 0⟩

/-- C3 (the claim states the intended invariant, the code breaks it):
syncing one new issue with a single non-blank note into an empty store
succeeds, yet the returned store has chunk ids `[2]` and vector keys
`[1, 2]`: the batch transaction runs `INSERT OR REPLACE INTO issues` once
per chunk, and the second REPLACE cascade-deletes the first chunk row
(foreign keys are on by default under better-sqlite3) while its
`vec_chunks` row survives — an orphaned vector visible after the sync
returns, against the code's own "(once per issue)" comment and its careful
vectors-then-chunks deletes elsewhere. -/
theorem sync_orphans_vectors :
    errorOf (syncIndex envNoteAdd none false Store.empty) = none
    ∧ ((syncIndex envNoteAdd none false Store.empty).2).chunks.map
        ChunkRow.id = [2]
    ∧ ((syncIndex envNoteAdd none false Store.empty).2).vectors.map
        Prod.fst = [1, 2]
    ∧ ¬ ((syncIndex envNoteAdd none false Store.empty).2).WF :=
  ⟨rfl, rfl, rfl, by decide⟩

/-! ### Search ordering and similarity scores (C8) -/

instance : IsTotal SearchResult byDistance :=
  ⟨fun a b => le_total a.distance b.distance⟩

instance : IsTrans SearchResult byDistance :=
  ⟨fun _ _ _ hab hbc => le_trans hab hbc⟩

lemma mem_searchRows_distance {dist : Vec → Vec → ℚ} {s : Store} {q : Vec}
    {r : SearchResult} (hr : r ∈ searchRows dist s q) :
    ∃ v : Vec, r.distance = dist q v := by
  obtain ⟨p, _, hp⟩ := List.mem_filterMap.mp hr
  obtain ⟨c, _, hc⟩ := Option.map_eq_some'.mp hp
  exact ⟨p.2, by rw [← hc]⟩

/-- C8: with the metric ranging over the cosine-distance interval `[0, 2]`,
`search` returns at most `limit` rows, sorted by non-decreasing distance,
every returned row's similarity score `1 - distance / 2` lies in `[0, 1]`,
and the score is monotonically decreasing in the distance. -/
theorem search_ordering_and_score (dist : Vec → Vec → ℚ) (s : Store)
    (q : Vec) (k : Nat)
    (hdist : ∀ a b, 0 ≤ dist a b ∧ dist a b ≤ 2) :
    (s.search dist q k).length ≤ k
    ∧ List.Sorted byDistance (s.search dist q k)
    ∧ (∀ r ∈ s.search dist q k,
        0 ≤ simScore r.distance ∧ simScore r.distance ≤ 1)
    ∧ (∀ d₁ d₂ : ℚ, d₁ ≤ d₂ → simScore d₂ ≤ simScore d₁) := by
  refine ⟨List.length_take_le _ _, ?_, ?_, ?_⟩
  · exact List.Pairwise.sublist (List.take_sublist _ _)
      (List.sorted_insertionSort byDistance _)
  · intro r hr
    have hr1 : r ∈ List.insertionSort byDistance (searchRows dist s q) :=
      List.take_subset _ _ hr
    have hr2 : r ∈ searchRows dist s q :=
      (List.perm_insertionSort byDistance _).subset hr1
    obtain ⟨v, hv⟩ := mem_searchRows_distance hr2
    obtain ⟨hlo, hhi⟩ := hdist q v
    rw [hv]
    constructor
    · simp only [simScore]; linarith
    · simp only [simScore]; linarith
  · intro d₁ d₂ h
    simp only [simScore]
    linarith

/-- The constant-distance metric used to instantiate
`search_ordering_and_score`. -/
def distConst : Vec → Vec → ℚ := fun _ _ => 1

/-- A one-chunk store used to instantiate `search_ordering_and_score`. -/
def sSearchW : Store :=
  ⟨[], [⟨1, 1, ChunkType.issue, none, "a", "m"⟩], 2, [(1, [1])], []⟩

/-- Concrete instantiation of `search_ordering_and_score`. -/
theorem search_ordering_and_score_witness :
    (∀ a b : Vec, 0 ≤ distConst a b ∧ distConst a b ≤ 2)
    ∧ (sSearchW.search distConst [0] 1).length ≤ 1 :=
  ⟨fun a b => by norm_num [distConst],
   (search_ordering_and_score distConst sSearchW [0] 1
      (fun a b => by norm_num [distConst])).1⟩

/-! ### Metadata is untouched by everything except `setMeta` -/

lemma meta_insertIssue (s : Store) (row : IssueRow) :
    (s.insertIssue row).meta = s.meta := by
  simp only [Store.insertIssue]
  split <;> rfl

lemma meta_deleteIssueChunks (s : Store) (iid : Nat) :
    (s.deleteIssueChunks iid).meta = s.meta := by
  simp only [Store.deleteIssueChunks]
  split <;> rfl

lemma meta_deleteIssue (s : Store) (iid : Nat) :
    (s.deleteIssue iid).meta = s.meta :=
  meta_deleteIssueChunks s iid

lemma meta_foldl_deleteIssue (l : List Nat) :
    ∀ s : Store, (l.foldl Store.deleteIssue s).meta = s.meta := by
  induction l with
  | nil => intro s; rfl
  | cons a t ih =>
      intro s
      rw [List.foldl_cons, ih, meta_deleteIssue]

lemma meta_purge (toUpdate : List Nat) (issues : List MantisIssue) :
    ∀ s : Store,
      (issues.foldl
        (fun st i =>
          if toUpdate.contains i.id then st.deleteIssueChunks i.id else st)
        s).meta = s.meta := by
  induction issues with
  | nil => intro s; rfl
  | cons i t ih =>
      intro s
      cases hc : toUpdate.contains i.id
      · rw [List.foldl_cons, if_neg (by simpa using hc), ih]
      · rw [List.foldl_cons, if_pos (by simpa using hc), ih,
          meta_deleteIssueChunks]

lemma meta_persist_fold (l : List ((MantisIssue × ChunkData) × Vec)) :
    ∀ s : Store,
      (l.foldl
        (fun st pe =>
          (st.insertIssue (issueRowOf pe.1.1)).insertChunk
            (chunkInsertOf pe.1.1 pe.1.2) pe.2)
        s).meta = s.meta := by
  induction l with
  | nil => intro s; rfl
  | cons a t ih =>
      intro s
      rw [List.foldl_cons, ih]
      exact meta_insertIssue s _

lemma meta_persistBatch (env : SyncEnv)
    (pairs : List (MantisIssue × ChunkData)) (s : Store) :
    (persistBatch env pairs s).meta = s.meta :=
  meta_persist_fold _ s

lemma meta_runBatches (env : SyncEnv) (toUpdate : List Nat)
    (batches : List (List Nat)) :
    ∀ (bidx : Nat) (s : Store),
      (stateOfRB (runBatches env toUpdate bidx batches s)).meta = s.meta := by
  induction batches with
  | nil => intro _ _; rfl
  | cons b rest ih =>
      intro bidx s
      simp only [runBatches]
      split
      · rw [ih, meta_persistBatch, meta_purge]
      · exact meta_purge _ _ _

lemma find?_filter_ne (l : List (String × String)) (k k' : String)
    (h : k' ≠ k) :
    (l.filter (fun p => p.1 ≠ k)).find? (fun p => p.1 = k')
      = l.find? (fun p => p.1 = k') := by
  induction l with
  | nil => rfl
  | cons a t ih =>
      by_cases ha : a.1 = k
      · rw [List.filter_cons_of_neg (by simp [ha]),
          List.find?_cons_of_neg _ (by simp [ha, Ne.symm h]), ih]
      · rw [List.filter_cons_of_pos (by simp [ha])]
        by_cases ha' : a.1 = k'
        · rw [List.find?_cons_of_pos _ (by simp [ha']),
            List.find?_cons_of_pos _ (by simp [ha'])]
        · rw [List.find?_cons_of_neg _ (by simp [ha']),
            List.find?_cons_of_neg _ (by simp [ha']), ih]

lemma getMeta_setMeta_same (s : Store) (k v : String) :
    (s.setMeta k v).getMeta k = some v := by
  unfold Store.setMeta Store.getMeta
  rw [List.find?_append]
  have h1 : (s.meta.filter (fun p => p.1 ≠ k)).find? (fun p => p.1 = k)
      = none := by
    rw [List.find?_eq_none]
    intro p hp
    have h2 := (List.mem_filter.mp hp).2
    simp only [decide_eq_true_eq] at h2 ⊢
    exact h2
  rw [h1]
  simp

lemma getMeta_setMeta_other (s : Store) (k k' v : String) (h : k' ≠ k) :
    (s.setMeta k v).getMeta k' = s.getMeta k' := by
  unfold Store.setMeta Store.getMeta
  rw [List.find?_append, find?_filter_ne s.meta k k' h]
  cases hf : s.meta.find? (fun p => p.1 = k') with
  | some p => simp
  | none => simp [Ne.symm h]

/-! ### Sync metadata recording (C6) -/

/-- C6 amended: the sync metadata keys are written only when every batch
commits; when a batch-level failure aborts the sync, the error propagates
with the metadata table exactly as it was before the sync. -/
theorem metadata_written_only_on_success (env : SyncEnv)
    (scope : Option Nat) (s : Store) :
    (∀ r s', syncIndex env scope false s = (Except.ok r, s') →
      s'.getMeta "last_sync" = some env.now
      ∧ s'.getMeta "last_sync_result"
          = some (syncResultJson r.added r.updated r.deleted))
    ∧ (∀ e s', syncIndex env scope false s = (Except.error e, s') →
      s'.meta = s.meta) := by
  constructor
  · intro r s' heq
    simp only [syncIndex, Bool.false_eq_true, if_false] at heq
    split at heq
    · simp at heq
    · rename_i s2 hs2
      simp only [Prod.mk.injEq, Except.ok.injEq] at heq
      obtain ⟨hr1, hr2⟩ := heq
      subst hr1
      subst hr2
      refine ⟨?_, ?_⟩
      · rw [getMeta_setMeta_other _ _ _ _ (by decide), getMeta_setMeta_same]
      · rw [getMeta_setMeta_same]
  · intro e s' heq
    simp only [syncIndex, Bool.false_eq_true, if_false] at heq
    split at heq
    · rename_i es hes
      simp only [Prod.mk.injEq, Except.error.injEq] at heq
      obtain ⟨he, hs⟩ := heq
      subst hs
      have h1 := meta_runBatches env
        (classify s (fetchAllIssueHeaders env.remote scope)).2
        (chunksOf env.batchSize
          ((classify s (fetchAllIssueHeaders env.remote scope)).1 ++
            (classify s (fetchAllIssueHeaders env.remote scope)).2))
        0
        ((toDeleteList s (fetchAllIssueHeaders env.remote scope)).foldl
          Store.deleteIssue s)
      rw [hes] at h1
      exact h1.trans (meta_foldl_deleteIssue _ s)
    · simp at heq

/-- Issue 1 of project one, used by several environments. -/
def issueP1A : MantisIssue :=
  ⟨1, "sA", "dA", refP1, none, refStatus, refUser, none, "cA", "uA", none,
   none⟩

/-- Issue 2 of project one, used by the abort environment. -/
def issueP1B : MantisIssue :=
  ⟨2, "sB", "dB", refP1, none, refStatus, refUser, none, "cB", "uB", none,
   none⟩

/-- Two new remote issues, batch size 1, first batch commits, second batch
transaction fails. -/
def envAbort : SyncEnv :=
  ⟨[⟨1, "uA", refP1⟩, ⟨2, "uB", refP1⟩],
   fun id => if id = 1 then some issueP1A
             else if id = 2 then some issueP1B else none,
   fun _ => [1], 1, fun i => i == 0, "t0", 0⟩

/-- C6 counterexample: a sync that commits its first batch (one issue row
is stored — partial progress) and aborts on the second batch leaves both
metadata keys unwritten, while the claim requires them to be recorded on
abort with partial progress. -/
theorem abort_leaves_metadata_unwritten :
    errorOf (syncIndex envAbort none false Store.empty)
        = some "Batch transaction failed"
    ∧ ((syncIndex envAbort none false Store.empty).2).issues.length = 1
    ∧ ((syncIndex envAbort none false Store.empty).2).getMeta "last_sync"
        = none
    ∧ ((syncIndex envAbort none false
          Store.empty).2).getMeta "last_sync_result" = none :=
  ⟨rfl, rfl, rfl, rfl⟩

/-- Concrete instantiation of `metadata_written_only_on_success` at a
successful sync. -/
theorem metadata_written_only_on_success_witness :
    ((syncIndex envTrivial none false Store.empty).2).getMeta "last_sync"
      = some "t0" :=
  ((metadata_written_only_on_success envTrivial none Store.empty).1
    ⟨0, 0, 0, 0, 0, 0⟩
    ((Store.empty.setMeta "last_sync" "t0").setMeta "last_sync_result"
      (syncResultJson 0 0 0))
    rfl).1

/-! ### Per-record fetch failures (C4) -/

lemma runBatches_ok_of_persistOk (env : SyncEnv) (toUpdate : List Nat)
    (hok : ∀ i, env.persistOk i = true) (batches : List (List Nat)) :
    ∀ (bidx : Nat) (s : Store),
      ∃ s', runBatches env toUpdate bidx batches s = Except.ok s' := by
  induction batches with
  | nil => exact fun bidx s => ⟨s, rfl⟩
  | cons b rest ih =>
      intro bidx s
      simp only [runBatches]
      rw [if_pos (hok bidx)]
      exact ih (bidx + 1) _

/-- C4 amended: per-record fetch failures never fail a batch or the sync —
with every batch transaction committing, the sync returns `ok` whatever the
fetch oracle does — but the returned `added`/`updated` counts are the diff
counts, which still include the ids whose fetch failed; failures show up
only in the stored rows (and hence `totalIssues`/`totalChunks`), not by
being subtracted from `added`/`updated`. -/
theorem fetch_failures_skipped_counts_are_diff (env : SyncEnv)
    (scope : Option Nat) (s : Store)
    (hok : ∀ i, env.persistOk i = true) :
    (resultOf (syncIndex env scope false s)).map SyncResult.added
        = some (classify s (fetchAllIssueHeaders env.remote scope)).1.length
    ∧ (resultOf (syncIndex env scope false s)).map SyncResult.updated
        = some
          (classify s (fetchAllIssueHeaders env.remote scope)).2.length := by
  obtain ⟨s2, hs2⟩ := runBatches_ok_of_persistOk env
    (classify s (fetchAllIssueHeaders env.remote scope)).2 hok
    (chunksOf env.batchSize
      ((classify s (fetchAllIssueHeaders env.remote scope)).1 ++
        (classify s (fetchAllIssueHeaders env.remote scope)).2))
    0
    ((toDeleteList s (fetchAllIssueHeaders env.remote scope)).foldl
      Store.deleteIssue s)
  simp only [syncIndex, Bool.false_eq_true, if_false]
  rw [hs2]
  exact ⟨rfl, rfl⟩

/-- A remote with one new issue whose full fetch always fails. -/
def envFetchFail : SyncEnv :=
  ⟨[⟨1, "u1ts", refP1⟩], fun _ => none, fun _ => [1], 50, fun _ => true,
   "t0", 0⟩

/-- C4 counterexample: issue 1 is classified as add and its fetch fails;
the sync succeeds and stores nothing for it, yet returns `added = 1` — the
failed id is not absent from the returned `added` count. -/
theorem fetch_failure_still_counted :
    (resultOf (syncIndex envFetchFail none false Store.empty)).map
        SyncResult.added = some 1
    ∧ (resultOf (syncIndex envFetchFail none false Store.empty)).map
        SyncResult.totalIssues = some 0
    ∧ ((syncIndex envFetchFail none false Store.empty).2).issues = []
    ∧ ((syncIndex envFetchFail none false Store.empty).2).chunks = [] :=
  ⟨rfl, rfl, rfl, rfl⟩

/-- Concrete instantiation of `fetch_failures_skipped_counts_are_diff`. -/
theorem fetch_failures_skipped_counts_are_diff_witness :
    (∀ i, envFetchFail.persistOk i = true)
    ∧ (resultOf (syncIndex envFetchFail none false Store.empty)).map
        SyncResult.added
      = some (classify Store.empty
          (fetchAllIssueHeaders envFetchFail.remote none)).1.length :=
  ⟨fun _ => rfl,
   (fetch_failures_skipped_counts_are_diff envFetchFail none Store.empty
     (fun _ => rfl)).1⟩

/-! ### Scoped sync and out-of-scope records (C1) -/

/-- A stored issue belonging to project 2. -/
def rowP2 : IssueRow :=
  ⟨2, 2, "ProjectTwo", "s2", "new", none, "alice", "c2", "u2ts", "raw"⟩

/-- A store holding only the project-2 issue with one chunk and vector. -/
def sOutOfScope : Store :=
  ⟨[rowP2], [⟨1, 2, ChunkType.issue, none, "txt", "md"⟩], 2, [(1, [1])],
   []⟩

/-- A remote with issue 1 in project 1 and issue 2 in project 2. -/
def envScoped : SyncEnv :=
  ⟨[⟨1, "u1ts", refP1⟩, ⟨2, "u2ts", refP2⟩],
   fun id => if id = 1 then some issueP1A else none,
   fun _ => [1], 50, fun _ => true, "t0", 0⟩

/-- C1 (the claim holds, the code does not): syncing with scope project 1
fetches only project-1 headers, so stored issue 2 — which belongs to
project 2, outside the scope — is classified as deleted and its record,
chunk and vector rows are all removed, and the sync reports `deleted = 1`.
The claim (and the tool's own documentation, "only sync issues from this
project") requires out-of-scope ids to be left untouched. -/
theorem scoped_sync_deletes_out_of_scope :
    rowP2.project_id = 2
    ∧ fetchAllIssueHeaders envScoped.remote (some 1) = [⟨1, "u1ts", refP1⟩]
    ∧ sOutOfScope.issues.filter (fun r => r.id = 2) = [rowP2]
    ∧ sOutOfScope.chunks.filter (fun c => c.issue_id = 2)
        = [⟨1, 2, ChunkType.issue, none, "txt", "md"⟩]
    ∧ (resultOf (syncIndex envScoped (some 1) false sOutOfScope)).map
        SyncResult.deleted = some 1
    ∧ ((syncIndex envScoped (some 1) false
          sOutOfScope).2).issues.filter (fun r => r.id = 2) = []
    ∧ ((syncIndex envScoped (some 1) false
          sOutOfScope).2).chunks.filter (fun c => c.issue_id = 2) = []
    ∧ ((syncIndex envScoped (some 1) false
          sOutOfScope).2).vectors.filter (fun p => p.1 = 1) = [] :=
  ⟨rfl, rfl, rfl, rfl, rfl, rfl, rfl, rfl⟩

/-! ### Re-sync against an unchanged remote (C9) -/

/-- The full record matching `sEmptyTs`: its `updated_at` is the empty
string, exactly as stored. -/
def issueEmptyTs : MantisIssue :=
  ⟨1, "s", "d", refP1, none, refStatus, refUser, none, "c", "", none, none⟩

/-- An unchanged remote for `sEmptyTs`: the header set and `updated_at`
strings equal the stored ones, and every fetch succeeds. -/
def envResync : SyncEnv :=
  ⟨[⟨1, "", refP1⟩], fun _ => some issueEmptyTs, fun _ => [1], 50,
   fun _ => true, "t0", 0⟩

/-- C9 counterexample: the remote is unchanged (identical header set and
`updated_at` strings, all fetches succeed), yet a re-sync returns
`added = 1`, not 0: the stored empty `updated_at` string is JS-falsy, so
the id is re-classified as add and re-processed.  The record and chunk
counts happen to stay equal only because the per-chunk
`INSERT OR REPLACE` cascade-deletes the old chunk row (its id changes from
1 to 2) while its vector survives, growing the vector table from 1 to 2
rows. -/
theorem resync_unchanged_remote_not_idempotent :
    sEmptyTs.lookupTs 1 = some ""
    ∧ envResync.remote = [⟨1, "", refP1⟩]
    ∧ envResync.fetch 1 = some issueEmptyTs
    ∧ issueEmptyTs.updated_at = ""
    ∧ (resultOf (syncIndex envResync none false sEmptyTs)).map
        SyncResult.added = some 1
    ∧ sEmptyTs.chunks.map ChunkRow.id = [1]
    ∧ ((syncIndex envResync none false sEmptyTs).2).chunks.map
        ChunkRow.id = [2]
    ∧ sEmptyTs.vectors.length = 1
    ∧ ((syncIndex envResync none false sEmptyTs).2).vectors.length = 2 :=
  ⟨rfl, rfl, rfl, rfl, rfl, rfl, rfl, rfl, rfl⟩

/-- C9 amended: when every in-scope remote header matches the stored
`updated_at` string exactly and that string is non-empty, and every stored
id appears among the headers, a re-sync classifies nothing, deletes
nothing, runs no batch, and returns `added = updated = deleted = 0` with
the record and chunk tables unchanged (only the sync metadata keys are
rewritten). -/
theorem resync_idempotent (env : SyncEnv) (scope : Option Nat) (s : Store)
    (hts : ∀ h ∈ fetchAllIssueHeaders env.remote scope,
      s.lookupTs h.id = some h.updated_at ∧ h.updated_at ≠ "")
    (hcov : ∀ r ∈ s.issues,
      ∃ h ∈ fetchAllIssueHeaders env.remote scope, h.id = r.id) :
    syncIndex env scope false s =
      (Except.ok ⟨0, 0, 0, s.issues.length, s.chunks.length, env.duration⟩,
       (s.setMeta "last_sync" env.now).setMeta "last_sync_result"
         (syncResultJson 0 0 0)) := by
  have hcl : classify s (fetchAllIssueHeaders env.remote scope)
      = ([], []) := by
    rw [classify_eq]
    have h1 : (fetchAllIssueHeaders env.remote scope).filter (addPred s)
        = [] := by
      rw [List.filter_eq_nil_iff]
      intro h hh
      obtain ⟨hlk, hne⟩ := hts h hh
      simp [addPred, hlk, hne]
    have h2 : (fetchAllIssueHeaders env.remote scope).filter (updPred s)
        = [] := by
      rw [List.filter_eq_nil_iff]
      intro h hh
      obtain ⟨hlk, hne⟩ := hts h hh
      simp [updPred, hlk]
    rw [h1, h2]
    rfl
  have hdel : toDeleteList s (fetchAllIssueHeaders env.remote scope)
      = [] := by
    rw [toDeleteList_eq]
    have h3 : s.issues.filter
        (fun r => !((fetchAllIssueHeaders env.remote scope).any
          (fun h => h.id == r.id))) = [] := by
      rw [List.filter_eq_nil_iff]
      intro r hr
      obtain ⟨h, hh, hid⟩ := hcov r hr
      simp only [Bool.not_eq_true', Bool.not_eq_false, List.any_eq_true]
      exact ⟨h, hh, by simp [hid]⟩
    rw [h3]
    rfl
  simp only [syncIndex, Bool.false_eq_true, if_false]
  rw [hcl, hdel]
  rfl

/-- A stored issue whose timestamp matches the remote header. -/
def rowMatch : IssueRow :=
  ⟨1, 1, "ProjectOne", "s", "new", none, "alice", "c", "u1ts", "raw"⟩

/-- A one-issue store in sync with `envMatch`. -/
def sMatch : Store :=
  ⟨[rowMatch], [⟨1, 1, ChunkType.issue, none, "txt", "md"⟩], 2, [(1, [1])],
   []⟩

/-- A remote identical to what `sMatch` has stored. -/
def envMatch : SyncEnv :=
  ⟨[⟨1, "u1ts", refP1⟩], fun _ => none, fun _ => [1], 50, fun _ => true,
   "t0", 3⟩

/-- Concrete instantiation of `resync_idempotent`. -/
theorem resync_idempotent_witness :
    (∀ h ∈ fetchAllIssueHeaders envMatch.remote none,
      sMatch.lookupTs h.id = some h.updated_at ∧ h.updated_at ≠ "")
    ∧ syncIndex envMatch none false sMatch =
        (Except.ok ⟨0, 0, 0, 1, 1, 3⟩,
         (sMatch.setMeta "last_sync" "t0").setMeta "last_sync_result"
           (syncResultJson 0 0 0)) :=
  ⟨by decide, resync_idempotent envMatch none sMatch (by decide) (by decide)⟩

/-! ### Frame preservation for records whose fetch failed (C10) -/

/-- The chunk ids a store holds for one issue. -/
def chunkIdsOf (s : Store) (iid : Nat) : List Nat :=
  (s.chunks.filter (fun c => c.issue_id = iid)).map ChunkRow.id

/-- The rows belonging to issue `iid` are the same in `t` as in `s`: its
issue row, its chunk rows, and the vector rows keyed by its (original)
chunk ids. -/
def FramePres (iid : Nat) (s t : Store) : Prop :=
  t.issues.filter (fun r => r.id = iid)
      = s.issues.filter (fun r => r.id = iid)
  ∧ t.chunks.filter (fun c => c.issue_id = iid)
      = s.chunks.filter (fun c => c.issue_id = iid)
  ∧ t.vectors.filter (fun p => p.1 ∈ chunkIdsOf s iid)
      = s.vectors.filter (fun p => p.1 ∈ chunkIdsOf s iid)

lemma FramePres.rfl' (iid : Nat) (s : Store) : FramePres iid s s :=
  ⟨rfl, rfl, rfl⟩

lemma filter_filter_of_imp {α : Type} (p q : α → Bool) (l : List α)
    (h : ∀ a, p a = true → q a = true) :
    (l.filter q).filter p = l.filter p := by
  rw [List.filter_filter]
  apply List.filter_congr
  intro a _
  cases hp : p a
  · simp
  · simp [h a hp]

lemma chunkIdsOf_eq_of_frame {iid : Nat} {s t : Store}
    (hF : FramePres iid s t) : chunkIdsOf t iid = chunkIdsOf s iid :=
  congrArg (List.map ChunkRow.id) hF.2.1

lemma mem_chunkIdsOf {t : Store} {k iid : Nat} :
    k ∈ chunkIdsOf t iid ↔
      ∃ c ∈ t.chunks, c.issue_id = iid ∧ c.id = k := by
  unfold chunkIdsOf
  constructor
  · intro hk
    obtain ⟨c, hc, hck⟩ := List.mem_map.mp hk
    obtain ⟨hcm, hcp⟩ := List.mem_filter.mp hc
    exact ⟨c, hcm, by simpa using hcp, hck⟩
  · rintro ⟨c, hcm, hci, hck⟩
    exact List.mem_map.mpr ⟨c, List.mem_filter.mpr ⟨hcm, by simp [hci]⟩, hck⟩

lemma chunkIdsOf_disjoint {t : Store}
    (h2 : (t.chunks.map ChunkRow.id).Nodup) {i j : Nat} (hne : i ≠ j)
    {k : Nat} (hki : k ∈ chunkIdsOf t i) : k ∉ chunkIdsOf t j := by
  intro hkj
  obtain ⟨c1, hc1m, hc1i, hc1k⟩ := mem_chunkIdsOf.mp hki
  obtain ⟨c2, hc2m, hc2i, hc2k⟩ := mem_chunkIdsOf.mp hkj
  have : c1 = c2 :=
    List.inj_on_of_nodup_map h2 hc1m hc2m (by rw [hc1k, hc2k])
  subst this
  exact hne (by rw [← hc1i, hc2i])

lemma chunkIdsOf_lt_next {t : Store} (hWFC : t.WFC) {k iid : Nat}
    (hk : k ∈ chunkIdsOf t iid) : k < t.nextChunkId := by
  obtain ⟨c, hcm, _, hck⟩ := mem_chunkIdsOf.mp hk
  rw [← hck]
  exact hWFC.2 c hcm

lemma FramePres_insertIssue {iid : Nat} {s t : Store}
    (hF : FramePres iid s t) {row : IssueRow} (hne : row.id ≠ iid) :
    FramePres iid s (t.insertIssue row) := by
  obtain ⟨f1, f2, f3⟩ := hF
  have hrow : ([row].filter (fun r => r.id = iid)) = [] := by
    simp [hne]
  simp only [Store.insertIssue]
  split
  · refine ⟨?_, ?_, f3⟩
    · rw [List.filter_append, hrow, List.append_nil,
        filter_filter_of_imp _ _ _ ?_]
      · exact f1
      · intro a ha
        simp only [decide_eq_true_eq] at ha ⊢
        rw [ha]
        exact fun hc => hne hc.symm
    · rw [filter_filter_of_imp _ _ _ ?_]
      · exact f2
      · intro a ha
        simp only [decide_eq_true_eq] at ha ⊢
        rw [ha]
        exact fun hc => hne hc.symm
  · refine ⟨?_, f2, f3⟩
    rw [List.filter_append, hrow, List.append_nil]
    exact f1

lemma FramePres_insertChunk {iid : Nat} {s t : Store} (hWFC : t.WFC)
    (hF : FramePres iid s t) (c : ChunkInsert) (v : Vec)
    (hne : c.issue_id ≠ iid) :
    FramePres iid s (t.insertChunk c v) := by
  obtain ⟨f1, f2, f3⟩ := hF
  refine ⟨f1, ?_, ?_⟩
  · simp only [Store.insertChunk]
    rw [List.filter_append]
    have hnew : (([⟨t.nextChunkId, c.issue_id, c.chunk_type, c.note_id,
        c.text, c.metadata_json⟩] : List ChunkRow).filter
          (fun cr => cr.issue_id = iid)) = [] := by
      simp [hne]
    rw [hnew, List.append_nil]
    exact f2
  · simp only [Store.insertChunk]
    rw [List.filter_append]
    have hkey : t.nextChunkId ∉ chunkIdsOf s iid := by
      rw [← chunkIdsOf_eq_of_frame ⟨f1, f2, f3⟩]
      intro hmem
      exact absurd (chunkIdsOf_lt_next hWFC hmem) (lt_irrefl _)
    have hnew : (([(t.nextChunkId, v)] : List (Nat × Vec)).filter
        (fun p => p.1 ∈ chunkIdsOf s iid)) = [] := by
      simp [hkey]
    rw [hnew, List.append_nil]
    exact f3

lemma FramePres_deleteIssueChunks {iid : Nat} {s t : Store}
    (hWFC : t.WFC) (hF : FramePres iid s t) {jid : Nat} (hne : jid ≠ iid) :
    FramePres iid s (t.deleteIssueChunks jid) := by
  obtain ⟨f1, f2, f3⟩ := hF
  simp only [Store.deleteIssueChunks]
  split
  · exact ⟨f1, f2, f3⟩
  · refine ⟨f1, ?_, ?_⟩
    · rw [filter_filter_of_imp _ _ _ ?_]
      · exact f2
      · intro a ha
        simp only [decide_eq_true_eq] at ha ⊢
        rw [ha]
        exact fun hc => hne hc.symm
    · rw [filter_filter_of_imp _ _ _ ?_]
      · exact f3
      · intro p hp
        simp only [decide_eq_true_eq] at hp ⊢
        rw [← chunkIdsOf_eq_of_frame ⟨f1, f2, f3⟩] at hp
        intro hmem
        exact chunkIdsOf_disjoint hWFC.1 (Ne.symm hne) hp hmem

lemma FramePres_deleteIssue {iid : Nat} {s t : Store} (hWFC : t.WFC)
    (hF : FramePres iid s t) {jid : Nat} (hne : jid ≠ iid) :
    FramePres iid s (t.deleteIssue jid) := by
  obtain ⟨f1, f2, f3⟩ := FramePres_deleteIssueChunks hWFC hF hne
  refine ⟨?_, f2, f3⟩
  simp only [Store.deleteIssue]
  rw [filter_filter_of_imp _ _ _ ?_]
  · exact f1
  · intro a ha
    simp only [decide_eq_true_eq] at ha ⊢
    rw [ha]
    exact fun hc => hne hc.symm

lemma FramePres_setMeta {iid : Nat} {s t : Store}
    (hF : FramePres iid s t) (k v : String) :
    FramePres iid s (t.setMeta k v) := hF

lemma Frame_foldl_deleteIssue (iid : Nat) (l : List Nat) :
    ∀ (s t : Store), t.WFC → FramePres iid s t → (∀ d ∈ l, d ≠ iid) →
      (l.foldl Store.deleteIssue t).WFC
      ∧ FramePres iid s (l.foldl Store.deleteIssue t) := by
  induction l with
  | nil => exact fun s t hWFC hF _ => ⟨hWFC, hF⟩
  | cons d rest ih =>
      intro s t hWFC hF hd
      rw [List.foldl_cons]
      exact ih s _ (WFC_deleteIssue hWFC d)
        (FramePres_deleteIssue hWFC hF (hd d (List.mem_cons_self _ _)))
        (fun x hx => hd x (List.mem_cons_of_mem _ hx))

lemma Frame_purge (iid : Nat) (toUpdate : List Nat)
    (issues : List MantisIssue) :
    ∀ (s t : Store), t.WFC → FramePres iid s t →
      (∀ i ∈ issues, i.id ≠ iid) →
      (issues.foldl
        (fun st i =>
          if toUpdate.contains i.id then st.deleteIssueChunks i.id else st)
        t).WFC
      ∧ FramePres iid s (issues.foldl
          (fun st i =>
            if toUpdate.contains i.id then st.deleteIssueChunks i.id
            else st)
          t) := by
  induction issues with
  | nil => exact fun s t hWFC hF _ => ⟨hWFC, hF⟩
  | cons i rest ih =>
      intro s t hWFC hF hi
      cases hc : toUpdate.contains i.id
      · rw [List.foldl_cons, if_neg (by simpa using hc)]
        exact ih s t hWFC hF (fun x hx => hi x (List.mem_cons_of_mem _ hx))
      · rw [List.foldl_cons, if_pos (by simpa using hc)]
        exact ih s _ (WFC_deleteIssueChunks hWFC i.id)
          (FramePres_deleteIssueChunks hWFC hF
            (hi i (List.mem_cons_self _ _)))
          (fun x hx => hi x (List.mem_cons_of_mem _ hx))

lemma Frame_persist_fold (iid : Nat)
    (l : List ((MantisIssue × ChunkData) × Vec)) :
    ∀ (s t : Store), t.WFC → FramePres iid s t →
      (∀ pe ∈ l, pe.1.1.id ≠ iid) →
      (l.foldl
        (fun st pe =>
          (st.insertIssue (issueRowOf pe.1.1)).insertChunk
            (chunkInsertOf pe.1.1 pe.1.2) pe.2)
        t).WFC
      ∧ FramePres iid s (l.foldl
          (fun st pe =>
            (st.insertIssue (issueRowOf pe.1.1)).insertChunk
              (chunkInsertOf pe.1.1 pe.1.2) pe.2)
          t) := by
  induction l with
  | nil => exact fun s t hWFC hF _ => ⟨hWFC, hF⟩
  | cons a rest ih =>
      intro s t hWFC hF ha
      rw [List.foldl_cons]
      have h1 : a.1.1.id ≠ iid := ha a (List.mem_cons_self _ _)
      have hWFC1 := WFC_insertIssue hWFC (issueRowOf a.1.1)
      have hF1 := FramePres_insertIssue hF
        (show (issueRowOf a.1.1).id ≠ iid from h1)
      have hWFC2 := WFC_insertChunk hWFC1 (chunkInsertOf a.1.1 a.1.2) a.2
      have hF2 := FramePres_insertChunk hWFC1 hF1
        (chunkInsertOf a.1.1 a.1.2) a.2
        (show (chunkInsertOf a.1.1 a.1.2).issue_id ≠ iid from h1)
      exact ih s _ hWFC2 hF2 (fun x hx => ha x (List.mem_cons_of_mem _ hx))

lemma Frame_persistBatch (env : SyncEnv) (iid : Nat)
    (pairs : List (MantisIssue × ChunkData)) {s t : Store}
    (hWFC : t.WFC) (hF : FramePres iid s t)
    (hne : ∀ pc ∈ pairs, pc.1.id ≠ iid) :
    (persistBatch env pairs t).WFC
    ∧ FramePres iid s (persistBatch env pairs t) := by
  apply Frame_persist_fold iid _ s t hWFC hF
  rintro ⟨p, v⟩ hpe
  exact hne p (List.of_mem_zip hpe).1

lemma Frame_runBatches (env : SyncEnv) (iid : Nat) (toUpdate : List Nat)
    (hfetch : env.fetch iid = none)
    (hcoh : ∀ j i, env.fetch j = some i → i.id = j)
    (batches : List (List Nat)) :
    ∀ (bidx : Nat) (s t : Store), t.WFC → FramePres iid s t →
      FramePres iid s (stateOfRB (runBatches env toUpdate bidx batches t)) := by
  induction batches with
  | nil => exact fun _ s t _ hF => hF
  | cons b rest ih =>
      intro bidx s t hWFC hF
      simp only [runBatches]
      have hiss : ∀ i ∈ b.filterMap env.fetch, i.id ≠ iid := by
        intro i hi hieq
        obtain ⟨j, hjm, hj⟩ := List.mem_filterMap.mp hi
        have hij := hcoh j i hj
        rw [hieq] at hij
        rw [← hij] at hj
        rw [hfetch] at hj
        exact Option.noConfusion hj
      have hp := Frame_purge iid toUpdate (b.filterMap env.fetch) s t hWFC
        hF hiss
      split
      · have hpairs : ∀ pc ∈ (b.filterMap env.fetch).flatMap
            (fun i => (buildChunks i).map (fun c => (i, c))),
            pc.1.id ≠ iid := by
          intro pc hpc
          obtain ⟨i, him, hpc2⟩ := List.mem_flatMap.mp hpc
          obtain ⟨c, _, hcC⟩ := List.mem_map.mp hpc2
          rw [← hcC]
          exact hiss i him
        have hb := Frame_persistBatch env iid _ hp.1 hp.2 hpairs
        exact ih (bidx + 1) s _ hb.1 hb.2
      · exact hp.2

/-- C10: when the full fetch for id `iid` fails during a sync in which
`iid` is classified as an update, that record's issue row, its chunk rows,
and the vectors keyed by its chunk ids are all exactly as before the sync —
the purge of old chunks runs only for records whose fetch succeeded, so a
fetch failure never deletes previously indexed data. -/
theorem fetch_failure_preserves_record (env : SyncEnv)
    (scope : Option Nat) (s : Store) (iid : Nat) (hWF : s.WF)
    (hfetch : env.fetch iid = none)
    (hcoh : ∀ j i, env.fetch j = some i → i.id = j)
    (hupd : iid ∈ (classify s (fetchAllIssueHeaders env.remote scope)).2) :
    FramePres iid s ((syncIndex env scope false s).2) := by
  have hdelne : ∀ d ∈ toDeleteList s (fetchAllIssueHeaders env.remote scope),
      d ≠ iid := by
    intro d hd hdeq
    subst hdeq
    rw [toDeleteList_eq] at hd
    obtain ⟨r, hr, hrid⟩ := List.mem_map.mp hd
    obtain ⟨hrm, hrp⟩ := List.mem_filter.mp hr
    rw [classify_eq] at hupd
    obtain ⟨h, hh, hhid⟩ := List.mem_map.mp hupd
    have hhm := (List.mem_filter.mp hh).1
    simp only [Bool.not_eq_true', List.any_eq_false] at hrp
    have hfalse := hrp h hhm
    simp [hhid, hrid] at hfalse
  have hd := Frame_foldl_deleteIssue iid
    (toDeleteList s (fetchAllIssueHeaders env.remote scope)) s s hWF.toWFC
    (FramePres.rfl' iid s) hdelne
  have hrb := Frame_runBatches env iid
    (classify s (fetchAllIssueHeaders env.remote scope)).2 hfetch hcoh
    (chunksOf env.batchSize
      ((classify s (fetchAllIssueHeaders env.remote scope)).1 ++
        (classify s (fetchAllIssueHeaders env.remote scope)).2))
    0 s
    ((toDeleteList s (fetchAllIssueHeaders env.remote scope)).foldl
      Store.deleteIssue s)
    hd.1 hd.2
  simp only [syncIndex, Bool.false_eq_true, if_false]
  split
  · rename_i es hes
    rw [hes] at hrb
    exact hrb
  · rename_i s2 hs2
    rw [hs2] at hrb
    exact FramePres_setMeta (FramePres_setMeta hrb _ _) _ _

/-- A one-issue store whose stored timestamp is `"old"`. -/
def sUpd : Store :=
  ⟨[⟨1, 1, "ProjectOne", "s", "new", none, "alice", "c", "old", "raw"⟩],
   [⟨1, 1, ChunkType.issue, none, "txt", "md"⟩], 2, [(1, [1])], []⟩

/-- A remote where issue 1 has changed to `"new"` but every full fetch
fails. -/
def envUpdFail : SyncEnv :=
  ⟨[⟨1, "new", refP1⟩], fun _ => none, fun _ => [1], 50, fun _ => true,
   "t0", 0⟩

/-- Concrete instantiation of `fetch_failure_preserves_record`. -/
theorem fetch_failure_preserves_record_witness :
    sUpd.WF ∧ envUpdFail.fetch 1 = none
    ∧ 1 ∈ (classify sUpd (fetchAllIssueHeaders envUpdFail.remote none)).2
    ∧ FramePres 1 sUpd ((syncIndex envUpdFail none false sUpd).2) :=
  ⟨by decide, rfl, by decide,
   fetch_failure_preserves_record envUpdFail none sUpd 1 (by decide) rfl
     (fun j i h => Option.noConfusion h) (by decide)⟩

end MantisMcp
